import Mathlib

/-
Verification of the permissions synchronization scheduler
(enterprise/cmd/repo-updater/internal/authz/perms_syncer.go and the
Perforce authz provider) against its natural-language specification.

Shallow embedding conventions:
- machine integers (int32 user/repo IDs, account row IDs) carry no
  arithmetic in the modelled code and are embedded as Nat;
- Go time.Time values are embedded as Option Nat, where none models the
  zero value (an unset nextSyncAt);
- fallible store and provider calls are environment fields returning
  Except GoErr; every store write performed by the code is logged in an
  explicit write trace so that frame conditions can be stated;
- Go maps used only for lookup are embedded as lists searched with find?
  (Go map iteration order is unspecified; the list order stands in for
  one admissible order and no settled claim depends on it).

The request queue implementation (requestQueue) is not part of the
sources provided, only its caller perms_syncer.go; it is modelled from
the specification text, as marked on each of its definitions.
-/

set_option linter.unusedVariables false

namespace PermsSync

/-- Priority of a sync request (Go priority: priorityLow, priorityHigh). -/
inductive priority where
  | low
  | high
deriving DecidableEq, Repr

/-- Request type (Go requestType: requestTypeUser, requestTypeRepo). The
constructor unknown models any other integer value of the Go enum, which the
default branch of syncPerms treats as an unexpected request type. -/
inductive requestType where
  | user
  | repo
  | unknown
deriving DecidableEq, Repr

/-- Maximum of two priorities: the queue keeps the higher one when merging a
re-enqueue into an existing entry. -/
def prioMax : priority → priority → priority
  | .high, _ => .high
  | .low, p => p

/-- Next-sync timestamps: none models the Go zero time.Time (not set). -/
abbrev NSA := Option Nat

/-- Earliest of two requested sync times; an unset time (as soon as possible)
beats any concrete timestamp. -/
def nsaMin : NSA → NSA → NSA
  | none, _ => none
  | _, none => none
  | some a, some b => some (min a b)

/-- Strict order on next-sync times used by the queue ordering: unset sorts
first, concrete timestamps ascend. -/
def nsaLt : NSA → NSA → Bool
  | none, none => false
  | none, some _ => true
  | some _, none => false
  | some a, some b => a < b

/-- Value of the Go expression request.NextSyncAt.Sub(now) as used by the
executor. For an unset time the Go zero time lies at or before every clock
reading, so any non-positive value is faithful to the single use site
(the test wait > 0); for a concrete time t the difference t - now is exact. -/
def waitOf : NSA → Nat → Int
  | none, _ => -1
  | some t, now => (t : Int) - (now : Int)

/-- Modelled from the spec (the requestMeta type of the missing
request_queue.go): priority, entity type, entity ID, requested next sync time
and the noPerms flag, exactly the fields perms_syncer.go populates at every
enqueue call site. The Go field Type is renamed rType (Type is reserved). -/
structure requestMeta where
  Priority : priority
  rType : requestType
  ID : Nat
  NextSyncAt : NSA
  NoPerms : Bool
deriving DecidableEq, Repr

/-- Modelled from the spec (the syncRequest type of the missing
request_queue.go): a queue entry wrapping requestMeta with an acquired flag
and the enqueue sequence number used as the final ordering tiebreaker. -/
structure syncRequest where
  meta : requestMeta
  acquired : Bool
  seq : Nat
deriving DecidableEq, Repr

/-- Key test: does the entry belong to the (entity-type, entity-id) pair. -/
def sameKey (ty : requestType) (id : Nat) (e : syncRequest) : Bool :=
  e.meta.rType == ty && e.meta.ID == id

/-- Modelled from the spec: the heap ordering
(priority desc, nextSyncAt asc with unset first, enqueue-sequence). -/
def entryBefore (a b : syncRequest) : Bool :=
  if a.meta.Priority ≠ b.meta.Priority then a.meta.Priority == priority.high
  else if a.meta.NextSyncAt ≠ b.meta.NextSyncAt then nsaLt a.meta.NextSyncAt b.meta.NextSyncAt
  else a.seq < b.seq

/-- Ordered insertion maintaining the queue ordering (stands in for the heap
push plus re-heapify of the binary heap; only the multiset of entries and the
identity of the top element matter to the embedded operations). -/
def qInsert (e : syncRequest) : List syncRequest → List syncRequest
  | [] => [e]
  | x :: xs => if entryBefore e x then e :: x :: xs else x :: qInsert e xs

/-- Modelled from the spec: the priority request queue, an ordered list of
entries (heap) plus the enqueue sequence counter. The (type,id) lookup index
of the source is recovered by searching the list. -/
structure requestQueue where
  heap : List syncRequest
  seqCounter : Nat
deriving DecidableEq, Repr

/-- The empty priority request queue. -/
def emptyQueue : requestQueue := { heap := [], seqCounter := 0 }

/-- Number of live entries for a key. -/
def countKey (q : requestQueue) (ty : requestType) (id : Nat) : Nat :=
  q.heap.countP (fun e => sameKey ty id e)

/-- Modelled from the spec: enqueue(meta) inserts a new entry or updates an
existing unacquired one in place, re-heapifying, and returns whether an
existing entry was modified. On update the existing entry keeps its sequence
number, its priority is raised to the higher of the two and its nextSyncAt
becomes the earliest requested time, an unset time beating any concrete one
(spec sections 3 and 4.1); an acquired entry is not updated. The spec does
not fix the merged noPerms flag; the new meta value is used. -/
def enqueue (q : requestQueue) (m : requestMeta) : requestQueue × Bool :=
  match q.heap.find? (fun e => sameKey m.rType m.ID e) with
  | none =>
    let e : syncRequest := { meta := m, acquired := false, seq := q.seqCounter }
    ({ heap := qInsert e q.heap, seqCounter := q.seqCounter + 1 }, false)
  | some e =>
    if e.acquired then (q, false)
    else
      let merged : requestMeta :=
        { m with
          Priority := prioMax e.meta.Priority m.Priority
          NextSyncAt := nsaMin e.meta.NextSyncAt m.NextSyncAt }
      let e' : syncRequest := { e with meta := merged }
      ({ q with
          heap := qInsert e' (q.heap.filter (fun x => !(sameKey m.rType m.ID x))) },
        true)

/-- Modelled from the spec: acquireNext pops the top entry of the heap, marks
it acquired and returns it; if the heap is empty or the top entry is already
acquired it returns nothing. The due-time check is performed by the caller
runSync (perms_syncer.go lines 686-701), which releases a not-yet-due request
and arms the wake-up timer; acquireNext itself does not consult the clock,
otherwise the due-time test and timer logic in runSync would be unreachable. -/
def acquireNext (q : requestQueue) : Option (syncRequest × requestQueue) :=
  match q.heap with
  | [] => none
  | e :: rest =>
    if e.acquired then none
    else
      let e' : syncRequest := { e with acquired := true }
      some (e', { q with heap := e' :: rest })

/-- Modelled from the spec: release(type,id) un-acquires the entry for the key
without removing it from the queue. -/
def releaseQ (q : requestQueue) (ty : requestType) (id : Nat) : requestQueue :=
  { q with
    heap := q.heap.map (fun e => if sameKey ty id e then { e with acquired := false } else e) }

/-- Modelled from the spec: remove(type,id) fully removes the entry for the key
after its sync completes (the notifyWaiters channel argument has no queue
effect and is not modelled). -/
def removeQ (q : requestQueue) (ty : requestType) (id : Nat) : requestQueue :=
  { q with heap := q.heap.filter (fun e => !(sameKey ty id e)) }

/-- Go errors are embedded as their message strings. -/
abbrev GoErr := String

/-- errors.Wrap from the source: prepend a context message. -/
def wrapErr (msg : String) (e : GoErr) : GoErr := msg ++ ": " ++ e

/-- Fold of enqueue over a list of request metas, ignoring the updated flag
(as both scheduleUsers and scheduleRepos in the source do). -/
def enqueueAll (q : requestQueue) (ms : List requestMeta) : requestQueue :=
  ms.foldl (fun q m => (enqueue q m).fst) q

/-- Maximum priority over a non-empty sequence of enqueued metas, phrased as a
fold from the head. -/
def foldPrio (m : requestMeta) (ms : List requestMeta) : priority :=
  ms.foldl (fun a x => prioMax a x.Priority) m.Priority

/-- Earliest requested next-sync time over a non-empty sequence of enqueued
metas, unset beating concrete, phrased as a fold from the head. -/
def foldNsa (m : requestMeta) (ms : List requestMeta) : NSA :=
  ms.foldl (fun a x => nsaMin a x.NextSyncAt) m.NextSyncAt

/-- An authz provider as the syncer sees it: its stable ServiceID, ServiceType
and URN (the fetch behaviours live in the per-sync environments). -/
structure Provider where
  serviceID : String
  serviceType : String
  urn : String
deriving DecidableEq, Repr

/-- providersByServiceID from the source: lookup of a provider by ServiceID
(the Go map is embedded as a first-match search of the provider list). -/
def byServiceID (ps : List Provider) (sid : String) : Option Provider :=
  ps.find? (fun p => p.serviceID == sid)

/-- providersByURNs from the source: lookup of a provider by URN. -/
def byURN (ps : List Provider) (urn : String) : Option Provider :=
  ps.find? (fun p => p.urn == urn)

/-- Inputs of the isDisabled check of perms_syncer.go lines 876-881: the
permissions user mapping setting, the configured authz providers, the
licensing enforcement state and the disableAutoCodeHostSyncs site setting. -/
structure SyncerConfig where
  permsUserMappingEnabled : Bool
  providers : List Provider
  enforceTiers : Bool
  licenseCheckFails : Bool
  disableAutoCodeHostSyncs : Bool
deriving Repr

/-- isDisabled from the source: background permissions syncing is not enabled
when permissions user mapping is enabled, or no authz provider is configured
(the map built by providersByServiceID is empty exactly when the provider list
is empty), or license tiers are enforced and the ACL feature check fails, or
the disableAutoCodeHostSyncs site setting is set. -/
def isDisabled (c : SyncerConfig) : Bool :=
  c.permsUserMappingEnabled ||
    c.providers.isEmpty ||
    (c.enforceTiers && c.licenseCheckFails) ||
    c.disableAutoCodeHostSyncs

/-- scheduledUser from the source. -/
structure scheduledUser where
  prio : priority
  userID : Nat
  nextSyncAt : NSA
  noPerms : Bool
deriving DecidableEq, Repr

/-- scheduledRepo from the source. -/
structure scheduledRepo where
  prio : priority
  repoID : Nat
  nextSyncAt : NSA
  noPerms : Bool
deriving DecidableEq, Repr

/-- scheduleUsers from the source: enqueue one request per scheduled user
(the context-cancellation early exit is not taken in the embedded,
uncancelled runs). -/
def scheduleUsersQ (q : requestQueue) (users : List scheduledUser) : requestQueue :=
  users.foldl
    (fun q u =>
      (enqueue q
          { Priority := u.prio, rType := .user, ID := u.userID,
            NextSyncAt := u.nextSyncAt, NoPerms := u.noPerms }).fst)
    q

/-- scheduleRepos from the source: enqueue one request per scheduled repo. -/
def scheduleReposQ (q : requestQueue) (repos : List scheduledRepo) : requestQueue :=
  repos.foldl
    (fun q r =>
      (enqueue q
          { Priority := r.prio, rType := .repo, ID := r.repoID,
            NextSyncAt := r.nextSyncAt, NoPerms := r.noPerms }).fst)
    q

/-- ScheduleUsers from the source: returns immediately on an empty ID list or
when syncing is disabled; otherwise enqueues every user at high priority with
an unset nextSyncAt and noPerms false. -/
def ScheduleUsers (c : SyncerConfig) (q : requestQueue) (userIDs : List Nat) : requestQueue :=
  if userIDs.isEmpty then q
  else if isDisabled c then q
  else
    scheduleUsersQ q
      (userIDs.map (fun id =>
        { prio := .high, userID := id, nextSyncAt := none, noPerms := false }))

/-- ScheduleRepos from the source: returns immediately on an empty ID list or
when syncing is disabled; otherwise enqueues every repo at high priority with
an unset nextSyncAt and noPerms false. -/
def ScheduleRepos (c : SyncerConfig) (q : requestQueue) (repoIDs : List Nat) : requestQueue :=
  if repoIDs.isEmpty then q
  else if isDisabled c then q
  else
    scheduleReposQ q
      (repoIDs.map (fun id =>
        { prio := .high, repoID := id, nextSyncAt := none, noPerms := false }))

/-- syncPerms from the source, abstracted over the outcomes of the dispatched
user-centric and repo-centric sync routines (environment inputs): the deferred
queue.remove runs on every path, so the request key is removed from the queue
whatever the dispatch outcome, including the unexpected-request-type branch. -/
def syncPerms (q : requestQueue) (m : requestMeta)
    (userRes repoRes : Except GoErr Unit) : requestQueue × Except GoErr Unit :=
  let res : Except GoErr Unit :=
    match m.rType with
    | .user => userRes
    | .repo => repoRes
    | .unknown => .error "unexpected request type"
  (removeQ q m.rType m.ID, res)

/-- Result of one iteration of the runSync loop body: the queue afterwards,
the key dispatched to syncPerms if any, and the duration of the one-shot
wake-up timer if one was armed. -/
structure RunSyncStepResult where
  queue : requestQueue
  dispatched : Option (requestType × Nat)
  timer : Option Int
deriving Repr

/-- One iteration of the runSync loop of perms_syncer.go lines 686-709 at
clock reading now: acquire the next request; with no request, do nothing;
with a request whose wait = NextSyncAt.Sub(now) is positive, release it back
and arm a one-shot timer for exactly that wait; otherwise dispatch it to
syncPerms (whose outcome is an environment input and whose deferred remove
drops the request from the queue). -/
def runSyncStep (q : requestQueue) (now : Nat)
    (userRes repoRes : Except GoErr Unit) : RunSyncStepResult :=
  match acquireNext q with
  | none => { queue := q, dispatched := none, timer := none }
  | some (r, q1) =>
    let wait : Int := waitOf r.meta.NextSyncAt now
    if wait > 0 then
      { queue := releaseQ q1 r.meta.rType r.meta.ID, dispatched := none, timer := some wait }
    else
      let done := syncPerms q1 r.meta userRes repoRes
      { queue := done.fst, dispatched := some (r.meta.rType, r.meta.ID), timer := none }

/-- An external account row (extsvc.Account): its row ID and the service it
belongs to. -/
structure Account where
  id : Nat
  serviceType : String
  serviceID : String
deriving DecidableEq, Repr

/-- A user-owned external service (types.ExternalService): its row ID and URN
(token extraction from its config is an environment call keyed by the ID). -/
structure ExternalService where
  id : Nat
  urn : String
deriving DecidableEq, Repr

/-- authz.ExternalUserPermissions: exact repo identifiers plus include and
exclude contains identifiers returned by a provider. -/
structure ExternalUserPermissions where
  exacts : List String
  includeContains : List String
  excludeContains : List String
deriving DecidableEq, Repr

/-- api.ExternalRepoSpec as built in syncUserPerms: a repo identifier tagged
with the service identity of the provider that produced it. -/
structure ExternalRepoSpec where
  id : String
  serviceType : String
  serviceID : String
deriving DecidableEq, Repr

/-- Classification of a FetchUserPerms error, mirroring the errcode tests the
source applies: IsUnauthorized, IsForbidden, IsAccountSuspended, or any other
error. -/
inductive FetchErr where
  | unauthorized
  | forbidden
  | accountSuspended
  | other (msg : String)
deriving DecidableEq, Repr

/-- True exactly when the source treats the fetch error as a credential
problem (mark the account expired and continue). -/
def isAuthErr : FetchErr → Bool
  | .unauthorized => true
  | .forbidden => true
  | .accountSuspended => true
  | .other _ => false

/-- Message of a fetch error, used when the source wraps and returns it. -/
def fetchErrMsg : FetchErr → String
  | .unauthorized => "unauthorized"
  | .forbidden => "forbidden"
  | .accountSuspended => "account suspended"
  | .other m => m

/-- One write against the permission or accounts store, as issued by the
syncer (logged at call time, whatever the call outcome). -/
inductive StoreWrite where
  | associateUserAndSave (userID : Nat) (serviceID : String)
  | touchExpired (acctID : Nat)
  | touchLastValid (acctID : Nat)
  | setUserPermissions (userID : Nat) (ids : List Nat)
  | touchRepoPermissions (repoID : Nat)
  | setRepoPermissions (repoID : Nat) (userIDs : List Nat)
  | setRepoPendingPermissions (accountIDs : List String) (repoID : Nat)
deriving DecidableEq, Repr

/-- The dynamically-typed union ranged over by the fetch loop of
syncUserPerms (Go interface value holding either an external account or an
external service), embedded as a tagged sum. -/
inductive AccountOrService where
  | account (a : Account)
  | service (svc : ExternalService)
deriving DecidableEq, Repr

/-- Environment of syncUserPerms: every store read, store write outcome and
provider behaviour the function consumes, as pure data. -/
structure UserSyncEnv where
  listExtSvcPrivateRepoIDs : Except GoErr (List Nat)
  getUser : Except GoErr Unit
  listExternalAccounts : Except GoErr (List Account)
  listUserEmails : Except GoErr (List String)
  providers : List Provider
  fetchAccount : String → Except GoErr (Option Account)
  associateUserAndSave : String → Except GoErr Unit
  listExternalServices : Except GoErr (List ExternalService)
  waitForRateLimit : String → Except GoErr Unit
  fetchUserPerms : Nat → Option ExternalUserPermissions × Option FetchErr
  touchExpired : Nat → Except GoErr Unit
  touchLastValid : Nat → Except GoErr Unit
  extractToken : Nat → Except GoErr String
  fetchUserPermsByToken : Nat → Except GoErr (Option ExternalUserPermissions)
  listRepoNamesExact : List ExternalRepoSpec → Except GoErr (List Nat)
  listRepoNamesContains :
    List ExternalRepoSpec → List ExternalRepoSpec → Except GoErr (List Nat)
  setUserPermissions : Except GoErr Unit

/-- The account-discovery loop of syncUserPerms (lines 265-296): for every
configured provider without a matching external account, try FetchAccount;
on any failure or an empty result log and continue; on success associate and
persist the account, again continuing past failures. Returns the accounts to
append and the writes performed. -/
def fetchMissingAccounts (env : UserSyncEnv) (userID : Nat)
    (serviceKeys : List String) : List Provider → List Account × List StoreWrite
  | [] => ([], [])
  | p :: ps =>
    let rest := fetchMissingAccounts env userID serviceKeys ps
    if serviceKeys.contains (p.serviceType ++ ":" ++ p.serviceID) then rest
    else
      match env.fetchAccount p.serviceID with
      | .error _ => rest
      | .ok none => rest
      | .ok (some acct) =>
        match env.associateUserAndSave p.serviceID with
        | .error _ => rest
        | .ok _ => (acct :: rest.1, .associateUserAndSave userID p.serviceID :: rest.2)

/-- Stages of syncUserPerms before the fetch loop (lines 219-316): list the
direct-grant private repo IDs, load the user, its external accounts and
verified emails, run the account-discovery loop, list the user-owned external
services, and build the combined account-or-service list in source order.
Returns the direct-grant repo IDs and the list, plus the writes performed. -/
def userSyncPrep (env : UserSyncEnv) (userID : Nat) :
    Except GoErr (List Nat × List AccountOrService) × List StoreWrite :=
  match env.listExtSvcPrivateRepoIDs with
  | .error e => (.error (wrapErr "list external service repo IDs by user ID" e), [])
  | .ok repoIDs =>
    match env.getUser with
    | .error e => (.error (wrapErr "get user" e), [])
    | .ok _ =>
      match env.listExternalAccounts with
      | .error e => (.error (wrapErr "list external accounts" e), [])
      | .ok accts =>
        match env.listUserEmails with
        | .error e => (.error (wrapErr "list user verified emails" e), [])
        | .ok _ =>
          let serviceKeys := accts.map (fun a => a.serviceType ++ ":" ++ a.serviceID)
          let fetched := fetchMissingAccounts env userID serviceKeys env.providers
          let accts2 := accts ++ fetched.1
          match env.listExternalServices with
          | .error e => (.error (wrapErr "fetching external services" e), fetched.2)
          | .ok svcs =>
            (.ok (repoIDs, accts2.map .account ++ svcs.map .service), fetched.2)

/-- Accumulated repo identifier specs of the fetch loop. -/
structure SpecsState where
  repoSpecs : List ExternalRepoSpec
  includeContainsSpecs : List ExternalRepoSpec
  excludeContainsSpecs : List ExternalRepoSpec
deriving DecidableEq, Repr

/-- The empty accumulator the fetch loop starts from. -/
def emptySpecs : SpecsState :=
  { repoSpecs := [], includeContainsSpecs := [], excludeContainsSpecs := [] }

/-- Appending the exact, include-contains and exclude-contains identifiers of
one fetched permission set, tagged with the provider service identity
(lines 406-438). -/
def appendSpecs (st : SpecsState) (p : Provider) (perms : ExternalUserPermissions) :
    SpecsState :=
  { repoSpecs := st.repoSpecs ++
      perms.exacts.map (fun x =>
        { id := x, serviceType := p.serviceType, serviceID := p.serviceID }),
    includeContainsSpecs := st.includeContainsSpecs ++
      perms.includeContains.map (fun x =>
        { id := x, serviceType := p.serviceType, serviceID := p.serviceID }),
    excludeContainsSpecs := st.excludeContainsSpecs ++
      perms.excludeContains.map (fun x =>
        { id := x, serviceType := p.serviceType, serviceID := p.serviceID }) }

/-- One iteration of the fetch loop of syncUserPerms (lines 320-439). An
error result aborts the whole sync; an ok result carries the updated spec
accumulator; the write list holds the credential-state writes issued. For an
account: no provider means skip; a rate-limit failure aborts; an
unauthorized, forbidden or account-suspended fetch error marks the credential
expired and continues; any other fetch error aborts unless noPerms is set, in
which case the partial fetch result (if any) is still collected; a successful
fetch marks the credential last-valid and collects the result. For a
user-owned external service: no provider or a token problem means skip; a
rate-limit failure aborts; a fetch-by-token failure is logged and skipped. -/
def fetchItem (env : UserSyncEnv) (noPerms : Bool) (it : AccountOrService)
    (st : SpecsState) : Except GoErr SpecsState × List StoreWrite :=
  match it with
  | .account a =>
    match byServiceID env.providers a.serviceID with
    | none => (.ok st, [])
    | some provider =>
      match env.waitForRateLimit provider.serviceID with
      | .error e => (.error (wrapErr "wait for rate limiter" e), [])
      | .ok _ =>
        let fetched := env.fetchUserPerms a.id
        match fetched.2 with
        | some fe =>
          if isAuthErr fe then
            match env.touchExpired a.id with
            | .error e =>
              (.error (wrapErr "set expired for external account" e), [.touchExpired a.id])
            | .ok _ => (.ok st, [.touchExpired a.id])
          else if !noPerms then
            (.error (wrapErr "fetch user permissions" (fetchErrMsg fe)), [])
          else
            match fetched.1 with
            | none => (.ok st, [])
            | some perms => (.ok (appendSpecs st provider perms), [])
        | none =>
          match env.touchLastValid a.id with
          | .error e =>
            (.error (wrapErr "set last valid for external account" e), [.touchLastValid a.id])
          | .ok _ =>
            match fetched.1 with
            | none => (.ok st, [.touchLastValid a.id])
            | some perms => (.ok (appendSpecs st provider perms), [.touchLastValid a.id])
  | .service svc =>
    match byURN env.providers svc.urn with
    | none => (.ok st, [])
    | some provider =>
      match env.extractToken svc.id with
      | .error _ => (.ok st, [])
      | .ok token =>
        if token == "" then (.ok st, [])
        else
          match env.waitForRateLimit provider.serviceID with
          | .error e => (.error (wrapErr "wait for rate limiter" e), [])
          | .ok _ =>
            match env.fetchUserPermsByToken svc.id with
            | .error _ => (.ok st, [])
            | .ok none => (.ok st, [])
            | .ok (some perms) => (.ok (appendSpecs st provider perms), [])

/-- The fetch loop of syncUserPerms over the account-or-service list. -/
def fetchLoop (env : UserSyncEnv) (noPerms : Bool) :
    List AccountOrService → SpecsState → Except GoErr SpecsState × List StoreWrite
  | [], st => (.ok st, [])
  | it :: rest, st =>
    match fetchItem env noPerms it st with
    | (.error e, ws) => (.error e, ws)
    | (.ok st', ws) =>
      let r := fetchLoop env noPerms rest st'
      (r.1, ws ++ r.2)

/-- The batching loop of listPrivateRepoNamesByExact (lines 189-213),
structurally recursive on a fuel argument so that concrete instances reduce
in the kernel: query the store with at most nextCut specs at a time,
accumulating the returned private repo IDs, shrinking nextCut to the
remaining length once the tail is shorter. Every iteration with a positive
nextCut either drops at least one remaining spec or reaches an empty tail
and stops on the next iteration, so fuel equal to the initial length plus
two always suffices and the zero-fuel branch is unreachable from
listPrivateRepoNamesByExact. -/
def listNamesLoop (env : UserSyncEnv) : Nat → List ExternalRepoSpec → Nat →
    List Nat → Except GoErr (List Nat)
  | 0, _, _, acc => .ok acc
  | fuel + 1, remaining, nextCut, acc =>
    if nextCut = 0 then .ok acc
    else
      match env.listRepoNamesExact (remaining.take nextCut) with
      | .error e => .error e
      | .ok rs =>
        let remaining' := remaining.drop nextCut
        let nextCut' := if remaining'.length < nextCut then remaining'.length else nextCut
        listNamesLoop env fuel remaining' nextCut' (acc ++ rs)

/-- listPrivateRepoNamesByExact from the source: empty input short-circuits,
otherwise the batching loop runs with an initial cut of min(length, 10000). -/
def listPrivateRepoNamesByExact (env : UserSyncEnv)
    (repoSpecs : List ExternalRepoSpec) : Except GoErr (List Nat) :=
  if repoSpecs.isEmpty then .ok []
  else
    let nextCut := if repoSpecs.length < 10000 then repoSpecs.length else 10000
    listNamesLoop env (repoSpecs.length + 2) repoSpecs nextCut []

/-- Adding one ID to the roaring-bitmap permission set, embedded as a
duplicate-free list in insertion order. -/
def bitmapAdd (l : List Nat) (x : Nat) : List Nat :=
  if l.contains x then l else l ++ [x]

/-- syncUserPerms from the source (lines 219-484), over its environment: run
the preparation stages, the fetch loop, resolve the exact specs (private
repos only, batched), resolve contains specs only when include specs exist,
union the resolved repo IDs with the direct-grant repo IDs into the bitmap,
and persist the full replacement set with SetUserPermissions. -/
def syncUserPerms (env : UserSyncEnv) (userID : Nat) (noPerms : Bool) :
    Except GoErr Unit × List StoreWrite :=
  match userSyncPrep env userID with
  | (.error e, ws) => (.error e, ws)
  | (.ok (repoIDs, items), ws0) =>
    match fetchLoop env noPerms items emptySpecs with
    | (.error e, ws1) => (.error e, ws0 ++ ws1)
    | (.ok st, ws1) =>
      match listPrivateRepoNamesByExact env st.repoSpecs with
      | .error e =>
        (.error (wrapErr "list external repositories by exact matching" e), ws0 ++ ws1)
      | .ok names1 =>
        let containsRes : Except GoErr (List Nat) :=
          if st.includeContainsSpecs.isEmpty then .ok []
          else env.listRepoNamesContains st.includeContainsSpecs st.excludeContainsSpecs
        match containsRes with
        | .error e =>
          (.error (wrapErr "list external repositories by contains matching" e), ws0 ++ ws1)
        | .ok names2 =>
          let ids := ((names1 ++ names2) ++ repoIDs).foldl bitmapAdd []
          let ws2 := ws0 ++ ws1 ++ [StoreWrite.setUserPermissions userID ids]
          match env.setUserPermissions with
          | .error e => (.error (wrapErr "set user permissions" e), ws2)
          | .ok _ => (.ok (), ws2)

/-- True exactly on a SetUserPermissions write. -/
def isSetUserPermsWrite : StoreWrite → Bool
  | .setUserPermissions _ _ => true
  | _ => false

/-- A repository row as syncRepoPerms consumes it: ID, private flag, and the
URNs of its sources (the keys of the Go Sources map; map iteration order is
unspecified and the list order stands in for one admissible order). The Go
field Private is renamed priv (a reserved word). -/
structure Repo where
  id : Nat
  priv : Bool
  sources : List String
deriving DecidableEq, Repr

/-- Classification of a FetchRepoPerms error as the source tests it: a GitHub
APIError with status 404 (notFound), or any other error. -/
inductive RepoFetchErr where
  | notFound
  | other (msg : String)
deriving DecidableEq, Repr

/-- Message of a repo fetch error. -/
def repoFetchErrMsg : RepoFetchErr → String
  | .notFound => "not found"
  | .other m => m

/-- Environment of syncRepoPerms: every store read, store write outcome and
provider behaviour the function consumes, as pure data. -/
structure RepoSyncEnv where
  listRepos : Except GoErr (List Repo)
  listExtSvcUserIDs : Except GoErr (List Nat)
  providers : List Provider
  waitForRateLimit : String → Except GoErr Unit
  fetchRepoPerms : List String × Option RepoFetchErr
  getUserIDsByExternalAccounts : List String → Except GoErr (List (String × Nat))
  touchRepoPermissions : Except GoErr Unit
  transact : Except GoErr Unit
  setRepoPermissions : Except GoErr Unit
  setRepoPendingPermissions : Except GoErr Unit

/-- The source loop over the repository sources looking for the first URN with
a configured authz provider (lines 517-524). -/
def firstProviderMatch (ps : List Provider) : List String → Option Provider
  | [] => none
  | urn :: rest =>
    match byURN ps urn with
    | some p => some p
    | none => firstProviderMatch ps rest

/-- The tail of syncRepoPerms after a successful or tolerated fetch
(lines 568-635): resolve external account IDs to user IDs (only when any were
returned), build the user-ID bitmap from the mapping values and the
direct-grant user IDs, compute the still-pending account IDs (set semantics:
duplicates collapse, mapped accounts drop out), and write SetRepoPermissions
and SetRepoPendingPermissions inside one transaction. -/
def repoPermsFinish (env : RepoSyncEnv) (repoID : Nat) (userIDs : List Nat)
    (extAccountIDs : List String) : Except GoErr Unit × List StoreWrite :=
  let step : Except GoErr (List (String × Nat)) :=
    if extAccountIDs.length > 0 then env.getUserIDsByExternalAccounts extAccountIDs
    else .ok []
  match step with
  | .error e => (.error (wrapErr "get user IDs by external accounts" e), [])
  | .ok mapping =>
    let userIDsSet := ((mapping.map (fun kv => kv.2)) ++ userIDs).foldl bitmapAdd []
    let pendingSrc := if extAccountIDs.length > 0 then extAccountIDs.eraseDups else []
    let pendingAccountIDs :=
      pendingSrc.filter (fun aid => !(mapping.any (fun kv => kv.1 == aid)))
    match env.transact with
    | .error e => (.error (wrapErr "start transaction" e), [])
    | .ok _ =>
      match env.setRepoPermissions with
      | .error e =>
        (.error (wrapErr "set repository permissions" e),
          [StoreWrite.setRepoPermissions repoID userIDsSet])
      | .ok _ =>
        match env.setRepoPendingPermissions with
        | .error e =>
          (.error (wrapErr "set repository pending permissions" e),
            [StoreWrite.setRepoPermissions repoID userIDsSet,
              StoreWrite.setRepoPendingPermissions pendingAccountIDs repoID])
        | .ok _ =>
          (.ok (),
            [StoreWrite.setRepoPermissions repoID userIDsSet,
              StoreWrite.setRepoPendingPermissions pendingAccountIDs repoID])

/-- syncRepoPerms from the source (lines 489-636): list the repository by ID
(a missing repository is a silent no-op); for a private repository collect the
direct-grant user IDs and look for a provider matching one of its source
URNs; with no provider (any non-private repository, or a private one without
a matching URN) only touch the repo permissions and return; otherwise
rate-limit, fetch the authorized external account IDs, treat a 404 as
touch-and-return, abort on another fetch error unless noPerms is set, and
finish by resolving and persisting the permission and pending-permission
records. -/
def syncRepoPerms (env : RepoSyncEnv) (repoID : Nat) (noPerms : Bool) :
    Except GoErr Unit × List StoreWrite :=
  match env.listRepos with
  | .error e => (.error (wrapErr "list repositories" e), [])
  | .ok [] => (.ok (), [])
  | .ok (repo :: _) =>
    let stage : Except GoErr (List Nat × Option Provider) :=
      if repo.priv then
        match env.listExtSvcUserIDs with
        | .error e => .error (wrapErr "list external service user IDs by repo ID" e)
        | .ok userIDs => .ok (userIDs, firstProviderMatch env.providers repo.sources)
      else .ok ([], none)
    match stage with
    | .error e => (.error e, [])
    | .ok (userIDs, oprov) =>
      match oprov with
      | none =>
        (match env.touchRepoPermissions with
          | .error e => .error (wrapErr "touch repository permissions" e)
          | .ok _ => .ok (),
          [StoreWrite.touchRepoPermissions repoID])
      | some provider =>
        match env.waitForRateLimit provider.serviceID with
        | .error e => (.error (wrapErr "wait for rate limiter" e), [])
        | .ok _ =>
          let fetched := env.fetchRepoPerms
          match fetched.2 with
          | some .notFound =>
            (match env.touchRepoPermissions with
              | .error e => .error (wrapErr "touch repository permissions" e)
              | .ok _ => .ok (),
              [StoreWrite.touchRepoPermissions repoID])
          | some (.other m) =>
            if !noPerms then (.error (wrapErr "fetch repository permissions" m), [])
            else repoPermsFinish env repoID userIDs fetched.1
          | none => repoPermsFinish env repoID userIDs fetched.1

/-- Environment of the periodic schedule computation: the four store queries
it performs. The oldest-perms queries return (entity ID, stored last-updated
timestamp) pairs; the Go map results are embedded as lists in one admissible
iteration order. -/
structure ScheduleEnv where
  userIDsWithNoPerms : Except GoErr (List Nat)
  repoIDsWithNoPerms : Except GoErr (List Nat)
  userIDsWithOldestPerms : Nat → Except GoErr (List (Nat × Nat))
  reposIDsWithOldestPerms : Nat → Except GoErr (List (Nat × Nat))

/-- The schedule result type (struct schedule of the source). -/
structure Sched where
  users : List scheduledUser
  repos : List scheduledRepo
deriving DecidableEq, Repr

/-- scheduleUsersWithNoPerms from the source: every user without permission
records is scheduled at low priority, with nextSyncAt unset and noPerms set. -/
def scheduleUsersWithNoPerms (env : ScheduleEnv) : Except GoErr (List scheduledUser) :=
  match env.userIDsWithNoPerms with
  | .error e => .error e
  | .ok ids =>
    .ok (ids.map (fun id =>
      { prio := .low, userID := id, nextSyncAt := none, noPerms := true }))

/-- scheduleReposWithNoPerms from the source: every private repository without
permission records is scheduled at low priority, with nextSyncAt unset and
noPerms set. -/
def scheduleReposWithNoPerms (env : ScheduleEnv) : Except GoErr (List scheduledRepo) :=
  match env.repoIDsWithNoPerms with
  | .error e => .error e
  | .ok ids =>
    .ok (ids.map (fun id =>
      { prio := .low, repoID := id, nextSyncAt := none, noPerms := true }))

/-- scheduleUsersWithOldestPerms from the source: users with the oldest
permissions, capped by the limit, scheduled at low priority with their stored
last-updated timestamp as nextSyncAt. -/
def scheduleUsersWithOldestPerms (env : ScheduleEnv) (limit : Nat) :
    Except GoErr (List scheduledUser) :=
  match env.userIDsWithOldestPerms limit with
  | .error e => .error e
  | .ok results =>
    .ok (results.map (fun r =>
      { prio := .low, userID := r.1, nextSyncAt := some r.2, noPerms := false }))

/-- scheduleReposWithOldestPerms from the source. -/
def scheduleReposWithOldestPerms (env : ScheduleEnv) (limit : Nat) :
    Except GoErr (List scheduledRepo) :=
  match env.reposIDsWithOldestPerms limit with
  | .error e => .error e
  | .ok results =>
    .ok (results.map (fun r =>
      { prio := .low, repoID := r.1, nextSyncAt := some r.2, noPerms := false }))

/-- schedule from the source (lines 826-868): the four lists are computed in
strict precedence order (users with no perms, private repos with no perms,
then at most limit = 10 users and at most limit = 10 repos with the oldest
perms), users and repos each concatenated with the no-perms entries first. -/
def schedule (env : ScheduleEnv) : Except GoErr Sched :=
  match scheduleUsersWithNoPerms env with
  | .error e => .error (wrapErr "schedule users with no permissions" e)
  | .ok users1 =>
    match scheduleReposWithNoPerms env with
    | .error e => .error (wrapErr "schedule repositories with no permissions" e)
    | .ok repos1 =>
      match scheduleUsersWithOldestPerms env 10 with
      | .error e => .error (wrapErr "load users with oldest permissions" e)
      | .ok users2 =>
        match scheduleReposWithOldestPerms env 10 with
        | .error e => .error (wrapErr "scan repositories with oldest permissions" e)
        | .ok repos2 => .ok { users := users1 ++ users2, repos := repos1 ++ repos2 }

/-
Perforce provider (internal/authz/perforce): the protects-table scanning loop
of FetchUserPerms. The Go string operations are embedded as structurally
recursive functions over the character list of the string, matching the
documented semantics of the strings package functions the source calls.
-/

/-- strings.HasPrefix. -/
def strStarts (s pre : String) : Bool := pre.toList.isPrefixOf s.toList

/-- Characters of s before the first occurrence of pat; the whole of s when
pat does not occur (the effect of trimming at strings.Index for a non-empty
pattern). -/
def takeBeforeL (pat : List Char) : List Char → List Char
  | [] => []
  | c :: rest => if pat.isPrefixOf (c :: rest) then [] else c :: takeBeforeL pat rest

/-- strings.Contains for a non-empty pattern. -/
def containsL (pat : List Char) : List Char → Bool
  | [] => pat.isEmpty
  | c :: rest => pat.isPrefixOf (c :: rest) || containsL pat rest

/-- strings.Contains on strings. -/
def strContains (s pat : String) : Bool := containsL pat.toList s.toList

/-- strings.ReplaceAll worker, structurally recursive on a fuel argument so
that concrete instances reduce in the kernel: every recursive call shortens
the scanned list by at least one character (a non-empty pattern is consumed
whole on a match), so fuel equal to the list length always suffices and the
zero-fuel branch is unreachable from replaceL. -/
def replaceFuel (pat repl : List Char) : Nat → List Char → List Char
  | 0, s => s
  | _ + 1, [] => []
  | fuel + 1, c :: rest =>
    if pat ≠ [] && pat.isPrefixOf (c :: rest) then
      repl ++ replaceFuel pat repl fuel ((c :: rest).drop pat.length)
    else
      c :: replaceFuel pat repl fuel rest

/-- strings.ReplaceAll for a non-empty pattern: replace non-overlapping
occurrences left to right (an empty pattern, never used by the embedded code,
leaves the string unchanged). -/
def replaceL (pat repl s : List Char) : List Char :=
  replaceFuel pat repl s.length s

/-- strings.ReplaceAll on strings. -/
def goReplaceAll (s pat repl : String) : String :=
  String.mk (replaceL pat.toList repl.toList s.toList)

/-- strings.Fields worker, structurally recursive on a fuel argument: every
recursive call shortens the scanned list by at least one character, so fuel
equal to the list length always suffices and the zero-fuel branch is
unreachable from fieldsL. -/
def fieldsFuel : Nat → List Char → List String
  | 0, _ => []
  | _ + 1, [] => []
  | fuel + 1, c :: rest =>
    if c.isWhitespace then fieldsFuel fuel rest
    else
      String.mk (c :: rest.takeWhile (fun ch => !ch.isWhitespace)) ::
        fieldsFuel fuel (rest.dropWhile (fun ch => !ch.isWhitespace))

/-- strings.Fields: split around runs of whitespace. -/
def fieldsL (s : List Char) : List String :=
  fieldsFuel s.length s

/-- strings.TrimRight(s, "."): drop trailing dots. -/
def trimRightDots (s : List Char) : List Char :=
  (s.reverse.dropWhile (fun c => c == '.')).reverse

/-- Replacement for the Perforce three-dot wildcard, matching anything. -/
def wildcardMatchAll : String := "%"

/-- Replacement for the Perforce star wildcard, matching anything except a
slash within one directory. -/
def wildcardMatchDirectory : String := "[^/]+"

/-- canRevokeReadAccess from the source: access levels whose exclusion rule
revokes read access. -/
def canRevokeReadAccess (level : String) : Bool :=
  ["list", "read", "=read", "open", "write", "review", "owner", "admin", "super"].contains level

/-- canGrantReadAccess from the source: access levels whose grant rule grants
read access. -/
def canGrantReadAccess (level : String) : Bool :=
  ["read", "=read", "open", "=open", "write", "=write", "review", "owner", "admin", "super"].contains level

/-- The exclusion-matching loop of FetchUserPerms for a wildcard-free
exclusion path: walk the include list; the first include that is a prefix of
the path decides; when it equals the path exactly that include is removed,
otherwise the path is appended to the exclude list; with no prefix-matching
include the state is unchanged (the rule is dropped). -/
def handleExclusion (path : String) : List String → List String → List String × List String
  | [], excludes => ([], excludes)
  | pre :: rest, excludes =>
    if strStarts path pre then
      if path == pre then (rest, excludes)
      else (pre :: rest, excludes ++ [path])
    else
      let r := handleExclusion path rest excludes
      (pre :: r.1, r.2)

/-- The rule application of the protects scanning loop, after the wildcard
replacements: an exclusion (leading minus) is dropped unless the level can
revoke read access; a wildcard-carrying exclusion is always appended to the
exclude list; a wildcard-free one runs the exclusion-matching loop; a grant
is dropped unless the level can grant read access and is otherwise appended
to the include list. -/
def applyProtectsRule (st : List String × List String) (level depotContains : String) :
    List String × List String :=
  if strStarts depotContains "-" then
    let d := String.mk (depotContains.toList.drop 1)
    if !canRevokeReadAccess level then st
    else if strContains d wildcardMatchAll || strContains d wildcardMatchDirectory then
      (st.1, st.2 ++ [d])
    else
      handleExclusion d st.1 st.2
  else
    if !canGrantReadAccess level then st
    else (st.1 ++ [depotContains], st.2)

/-- Processing of one protects line (FetchUserPerms lines 207-287 of the
provider): skip pure comment lines, trim trailing comments, split into
fields, skip short lines, then apply the rule from fields 0 (level) and 4
(depot match) after trimming trailing dots and replacing the three-dot and
star wildcards. -/
def processProtectsLine (st : List String × List String) (line : String) :
    List String × List String :=
  if strStarts line "##" then st
  else
    let lineT := String.mk (takeBeforeL "##".toList line.toList)
    let fields := fieldsL lineT.toList
    if fields.length < 5 then st
    else
      let level := fields.headD ""
      let depotMatch := fields.getD 4 ""
      let d1 := String.mk (trimRightDots depotMatch.toList)
      let d2 := goReplaceAll d1 "..." wildcardMatchAll
      let d3 := goReplaceAll d2 "*" wildcardMatchDirectory
      applyProtectsRule st level d3

/-- The whole protects scan of FetchUserPerms: fold the line processor over
the protects lines, then append the match-all wildcard to every include and
exclude so all paths are treated as prefixes. -/
def scanProtects (lines : List String) : List String × List String :=
  let st := lines.foldl processProtectsLine ([], [])
  (st.1.map (fun s => s ++ wildcardMatchAll), st.2.map (fun s => s ++ wildcardMatchAll))

/-
Helper projections and concrete instances used by the verification below.
-/

/-- True exactly when an Except result is an error. -/
def resultIsError {α : Type} : Except GoErr α → Bool
  | .error _ => true
  | .ok _ => false

/-- Users of a schedule result, empty on error. -/
def schedUsersOf : Except GoErr Sched → List scheduledUser
  | .ok s => s.users
  | .error _ => []

/-- Repos of a schedule result, empty on error. -/
def schedReposOf : Except GoErr Sched → List scheduledRepo
  | .ok s => s.repos
  | .error _ => []

/-- Concrete request meta: low priority, user 7, due at 10. -/
def exMetaA : requestMeta :=
  { Priority := .low, rType := .user, ID := 7, NextSyncAt := some 10, NoPerms := false }

/-- Concrete request meta: high priority, user 7, due at 4. -/
def exMetaB : requestMeta :=
  { Priority := .high, rType := .user, ID := 7, NextSyncAt := some 4, NoPerms := false }

/-- Concrete request meta: low priority, user 7, no due time. -/
def exMetaC : requestMeta :=
  { Priority := .low, rType := .user, ID := 7, NextSyncAt := none, NoPerms := true }

/-- Concrete request meta: high priority, user 1, due at 5. -/
def exMeta5 : requestMeta :=
  { Priority := .high, rType := .user, ID := 1, NextSyncAt := some 5, NoPerms := false }

/-- Queue holding exactly the user-1 request due at 5. -/
def exQ5 : requestQueue := (enqueue emptyQueue exMeta5).fst

/-- The user-1 request as acquireNext hands it out (acquired). -/
def exReq5 : syncRequest := { meta := exMeta5, acquired := true, seq := 0 }

/-- The queue state paired with exReq5 by acquireNext. -/
def exQ5a : requestQueue := { heap := [exReq5], seqCounter := 1 }

/-- Concrete provider used by the sync environments below. -/
def provEx : Provider :=
  { serviceID := "https://gh.example/", serviceType := "github", urn := "extsvc:github:1" }

/-- Concrete external account 11 on the example provider. -/
def acctEx1 : Account :=
  { id := 11, serviceType := "github", serviceID := "https://gh.example/" }

/-- Concrete external account 12 on the example provider. -/
def acctEx2 : Account :=
  { id := 12, serviceType := "github", serviceID := "https://gh.example/" }

/-- Concrete user-sync environment: two accounts on one provider, account 11
fetches one exact repo identifier, account 12 fails with a non-auth error;
every store operation succeeds. -/
def userEnvEx : UserSyncEnv :=
  { listExtSvcPrivateRepoIDs := .ok [55]
    getUser := .ok ()
    listExternalAccounts := .ok [acctEx1, acctEx2]
    listUserEmails := .ok []
    providers := [provEx]
    fetchAccount := fun _ => .ok none
    associateUserAndSave := fun _ => .ok ()
    listExternalServices := .ok []
    waitForRateLimit := fun _ => .ok ()
    fetchUserPerms := fun id =>
      if id == 11 then
        (some { exacts := ["r1"], includeContains := [], excludeContains := [] }, none)
      else (none, some (.other "boom"))
    touchExpired := fun _ => .ok ()
    touchLastValid := fun _ => .ok ()
    extractToken := fun _ => .ok ""
    fetchUserPermsByToken := fun _ => .ok none
    listRepoNamesExact := fun _ => .ok [101]
    listRepoNamesContains := fun _ _ => .ok []
    setUserPermissions := .ok () }

/-- Concrete non-private repository 3. -/
def repoEx : Repo := { id := 3, priv := false, sources := [] }

/-- Concrete repo-sync environment returning the non-private repository 3;
every store operation succeeds. -/
def repoEnvEx : RepoSyncEnv :=
  { listRepos := .ok [repoEx]
    listExtSvcUserIDs := .ok []
    providers := []
    waitForRateLimit := fun _ => .ok ()
    fetchRepoPerms := ([], none)
    getUserIDsByExternalAccounts := fun _ => .ok []
    touchRepoPermissions := .ok ()
    transact := .ok ()
    setRepoPermissions := .ok ()
    setRepoPendingPermissions := .ok () }

/-- Concrete repo-sync environment whose repository listing is empty. -/
def repoEnvEmpty : RepoSyncEnv :=
  { listRepos := .ok []
    listExtSvcUserIDs := .ok []
    providers := []
    waitForRateLimit := fun _ => .ok ()
    fetchRepoPerms := ([], none)
    getUserIDsByExternalAccounts := fun _ => .ok []
    touchRepoPermissions := .ok ()
    transact := .ok ()
    setRepoPermissions := .ok ()
    setRepoPendingPermissions := .ok () }

/-- Concrete schedule environment: three never-synced users, two never-synced
private repos, no oldest-perms entries. -/
def schedEnvEx : ScheduleEnv :=
  { userIDsWithNoPerms := .ok [1, 2, 3]
    repoIDsWithNoPerms := .ok [4, 5]
    userIDsWithOldestPerms := fun _ => .ok []
    reposIDsWithOldestPerms := fun _ => .ok [] }

/-- Concrete configuration with permissions user mapping enabled, so that
background syncing is disabled. -/
def cDisabled : SyncerConfig :=
  { permsUserMappingEnabled := true, providers := [provEx], enforceTiers := false,
    licenseCheckFails := false, disableAutoCodeHostSyncs := false }

/-- Protects line granting read on //a/... to alice. -/
def exLine1 : String := "read user alice * //a/..."

/-- Protects line granting read on //a/b/... to alice. -/
def exLine2 : String := "read user alice * //a/b/..."

/-- Protects line revoking read on //a/b/... from alice. -/
def exLine3 : String := "read user alice * -//a/b/..."

/-
Theorems. Queue lemmas first.
-/

theorem countP_qInsert (p : syncRequest → Bool) (e : syncRequest) (l : List syncRequest) :
    (qInsert e l).countP p = l.countP p + (if p e then 1 else 0) := by
  induction l with
  | nil => simp [qInsert, List.countP_cons]
  | cons x xs ih =>
    simp only [qInsert]
    split
    · simp only [List.countP_cons]
      try omega
    · simp only [List.countP_cons, ih]
      try omega

theorem mem_qInsert {a e : syncRequest} {l : List syncRequest} :
    a ∈ qInsert e l ↔ a = e ∨ a ∈ l := by
  induction l with
  | nil => simp [qInsert]
  | cons x xs ih =>
    simp only [qInsert]
    split
    · simp [List.mem_cons]
      try tauto
    · simp [List.mem_cons, ih]
      try tauto

theorem find?_unique_entry (q : requestQueue) (ty : requestType) (id : Nat)
    (h1 : countKey q ty id = 1) :
    ∃ e0, q.heap.find? (fun e => sameKey ty id e) = some e0 ∧
      e0 ∈ q.heap ∧ sameKey ty id e0 = true := by
  have hpos : 0 < q.heap.countP (fun e => sameKey ty id e) := by
    unfold countKey at h1
    omega
  have hex : ∃ x ∈ q.heap, sameKey ty id x := List.countP_pos_iff.mp hpos
  have hsome : (q.heap.find? (fun e => sameKey ty id e)).isSome := by
    rw [List.find?_isSome]
    simpa using hex
  obtain ⟨e0, he0⟩ := Option.isSome_iff_exists.mp hsome
  exact ⟨e0, he0, List.mem_of_find?_eq_some he0, List.find?_some he0⟩

theorem enqueue_insert (q : requestQueue) (m : requestMeta)
    (h0 : countKey q m.rType m.ID = 0) :
    countKey (enqueue q m).fst m.rType m.ID = 1 ∧
    ∀ e ∈ (enqueue q m).fst.heap, sameKey m.rType m.ID e = true →
      e.meta.Priority = m.Priority ∧ e.meta.NextSyncAt = m.NextSyncAt ∧
        e.acquired = false := by
  unfold countKey at h0
  have hfind : q.heap.find? (fun e => sameKey m.rType m.ID e) = none := by
    apply List.find?_eq_none.mpr
    intro x hx
    have := List.countP_eq_zero.mp h0 x hx
    simpa using this
  have henq : (enqueue q m).fst =
      { heap := qInsert { meta := m, acquired := false, seq := q.seqCounter } q.heap,
        seqCounter := q.seqCounter + 1 } := by
    unfold enqueue
    rw [hfind]
  rw [henq]
  constructor
  · unfold countKey
    simp only
    rw [countP_qInsert, h0]
    simp [sameKey]
  · intro e he hkey
    rcases mem_qInsert.mp he with rfl | hmem
    · exact ⟨rfl, rfl, rfl⟩
    · exfalso
      have := List.countP_eq_zero.mp h0 e hmem
      simp [hkey] at this

theorem enqueue_update (q : requestQueue) (m : requestMeta) (p : priority) (t : NSA)
    (h1 : countKey q m.rType m.ID = 1)
    (h2 : ∀ e ∈ q.heap, sameKey m.rType m.ID e = true →
      e.meta.Priority = p ∧ e.meta.NextSyncAt = t ∧ e.acquired = false) :
    countKey (enqueue q m).fst m.rType m.ID = 1 ∧
    ∀ e ∈ (enqueue q m).fst.heap, sameKey m.rType m.ID e = true →
      e.meta.Priority = prioMax p m.Priority ∧
        e.meta.NextSyncAt = nsaMin t m.NextSyncAt ∧ e.acquired = false := by
  obtain ⟨e0, hfind, hmem0, hkey0⟩ := find?_unique_entry q m.rType m.ID h1
  obtain ⟨hp0, ht0, hacq0⟩ := h2 e0 hmem0 hkey0
  have hz : (q.heap.filter (fun x => !(sameKey m.rType m.ID x))).countP
      (fun e => sameKey m.rType m.ID e) = 0 := by
    apply List.countP_eq_zero.mpr
    intro a ha
    have := (List.mem_filter.mp ha).2
    simp at this
    simp [this]
  unfold enqueue
  rw [hfind]
  dsimp only
  rw [if_neg (by simp [hacq0])]
  constructor
  · unfold countKey
    simp only
    rw [countP_qInsert, hz]
    simp [sameKey]
  · intro e he hkey
    simp only at he
    rcases mem_qInsert.mp he with rfl | hmem
    · refine ⟨by simp [hp0], by simp [ht0], by simp [hacq0]⟩
    · exfalso
      have := (List.mem_filter.mp hmem).2
      simp [hkey] at this

theorem enqueueAll_inv (ty : requestType) (id : Nat) :
    ∀ (ms : List requestMeta) (q : requestQueue) (p : priority) (t : NSA),
      (∀ x ∈ ms, x.rType = ty ∧ x.ID = id) →
      countKey q ty id = 1 →
      (∀ e ∈ q.heap, sameKey ty id e = true →
        e.meta.Priority = p ∧ e.meta.NextSyncAt = t ∧ e.acquired = false) →
      countKey (enqueueAll q ms) ty id = 1 ∧
      ∀ e ∈ (enqueueAll q ms).heap, sameKey ty id e = true →
        e.meta.Priority = ms.foldl (fun a x => prioMax a x.Priority) p ∧
        e.meta.NextSyncAt = ms.foldl (fun a x => nsaMin a x.NextSyncAt) t ∧
        e.acquired = false
  | [], q, p, t, hk, h1, h2 => by
    simpa [enqueueAll] using ⟨h1, h2⟩
  | x :: ms, q, p, t, hk, h1, h2 => by
    obtain ⟨hty, hid⟩ := hk x (List.mem_cons_self x ms)
    have step := enqueue_update q x p t
      (by rw [hty, hid]; exact h1)
      (by rw [hty, hid]; exact h2)
    rw [hty, hid] at step
    have ih := enqueueAll_inv ty id ms (enqueue q x).fst
      (prioMax p x.Priority) (nsaMin t x.NextSyncAt)
      (fun y hy => hk y (List.mem_cons_of_mem _ hy)) step.1 step.2
    simpa [enqueueAll, List.foldl_cons] using ih

/-- C1: for every sequence of enqueue calls with the same (entity-type,
entity-id) key, starting from a queue without that key, the queue holds
exactly one live entry for the key, unacquired, with priority equal to the
maximum priority ever enqueued and nextSyncAt equal to the earliest requested
time, an unset time beating any concrete timestamp. -/
theorem enqueue_fold_unique_max_priority_earliest_nsa
    (q0 : requestQueue) (ty : requestType) (id : Nat) (m : requestMeta)
    (ms : List requestMeta)
    (h0 : countKey q0 ty id = 0)
    (hk : ∀ x ∈ m :: ms, x.rType = ty ∧ x.ID = id) :
    ((enqueueAll q0 (m :: ms)).heap.filter (fun e => sameKey ty id e)).map
        (fun e => (e.meta.Priority, e.meta.NextSyncAt, e.acquired))
      = [(foldPrio m ms, foldNsa m ms, false)] := by
  obtain ⟨hty, hid⟩ := hk m (List.mem_cons_self m ms)
  have first := enqueue_insert q0 m (by rw [hty, hid]; exact h0)
  rw [hty, hid] at first
  have main := enqueueAll_inv ty id ms (enqueue q0 m).fst m.Priority m.NextSyncAt
    (fun y hy => hk y (List.mem_cons_of_mem _ hy)) first.1 first.2
  have hfold : enqueueAll q0 (m :: ms) = enqueueAll (enqueue q0 m).fst ms := by
    simp [enqueueAll]
  rw [hfold]
  have hlen : (((enqueueAll (enqueue q0 m).fst ms).heap.filter
      (fun e => sameKey ty id e))).length = 1 := by
    have hcount := main.1
    unfold countKey at hcount
    rw [List.countP_eq_length_filter] at hcount
    exact hcount
  obtain ⟨e0, he0⟩ := List.length_eq_one.mp hlen
  have hmem : e0 ∈ (enqueueAll (enqueue q0 m).fst ms).heap.filter
      (fun e => sameKey ty id e) := by
    rw [he0]
    exact List.mem_singleton.mpr rfl
  have h1 := List.mem_filter.mp hmem
  obtain ⟨hp, ht, ha⟩ := main.2 e0 h1.1 h1.2
  rw [he0]
  simp [hp, ht, ha, foldPrio, foldNsa]

/-- Witness for C1: three enqueues for user 7 (low priority due at 10, then
high priority due at 4, then low priority with no due time) leave exactly one
unacquired entry, at high priority with an unset nextSyncAt. -/
theorem enqueue_fold_unique_witness :
    ((enqueueAll emptyQueue [exMetaA, exMetaB, exMetaC]).heap.filter
        (fun e => sameKey .user 7 e)).map
        (fun e => (e.meta.Priority, e.meta.NextSyncAt, e.acquired))
      = [(priority.high, none, false)] := by
  have h := enqueue_fold_unique_max_priority_earliest_nsa emptyQueue .user 7
    exMetaA [exMetaB, exMetaC] (by decide) (by decide)
  exact h.trans (by decide)

/-- C4: after syncPerms runs for any request, the request key is absent from
the queue, whatever the dispatch outcome and whatever the request type
(including the unexpected-type branch). -/
theorem syncPerms_removes_request (q : requestQueue) (m : requestMeta)
    (userRes repoRes : Except GoErr Unit) :
    countKey (syncPerms q m userRes repoRes).fst m.rType m.ID = 0 := by
  have hq : (syncPerms q m userRes repoRes).fst = removeQ q m.rType m.ID := rfl
  rw [hq]
  unfold removeQ countKey
  apply List.countP_eq_zero.mpr
  intro a ha
  have := (List.mem_filter.mp ha).2
  simp at this
  simp [this]

theorem countKey_releaseQ (q : requestQueue) (ty : requestType) (id : Nat) :
    countKey (releaseQ q ty id) ty id = countKey q ty id := by
  unfold countKey releaseQ
  simp only
  rw [List.countP_map]
  apply List.countP_congr
  intro x hx
  by_cases h : sameKey ty id x
  · simp only [Function.comp, if_pos h]
    rw [h]
    simp [sameKey] at h ⊢
    exact h
  · simp only [Function.comp, if_neg h]

theorem releaseQ_all_unacquired (q : requestQueue) (ty : requestType) (id : Nat) :
    ((releaseQ q ty id).heap.filter (fun e => sameKey ty id e)).all
      (fun e => !e.acquired) = true := by
  apply List.all_eq_true.mpr
  intro e he
  obtain ⟨hm, hk⟩ := List.mem_filter.mp he
  obtain ⟨x, hx, hfx⟩ := List.mem_map.mp hm
  by_cases h : sameKey ty id x
  · rw [if_pos h] at hfx
    rw [← hfx]
    simp
  · rw [if_neg h] at hfx
    rw [← hfx] at hk
    exact absurd hk (by simpa using h)

theorem acquireNext_some (q : requestQueue) (rq : syncRequest) (q1 : requestQueue)
    (hacq : acquireNext q = some (rq, q1)) :
    ∃ e rest, q.heap = e :: rest ∧ e.acquired = false ∧
      rq = { e with acquired := true } ∧
      q1 = { q with heap := { e with acquired := true } :: rest } := by
  unfold acquireNext at hacq
  cases hh : q.heap with
  | nil =>
    rw [hh] at hacq
    simp at hacq
  | cons e rest =>
    rw [hh] at hacq
    by_cases he : e.acquired
    · simp [he] at hacq
    · simp [he] at hacq
      exact ⟨e, rest, rfl, by simpa using he, hacq.1.symm, hacq.2.symm⟩

theorem countKey_acquireNext (q : requestQueue) (rq : syncRequest)
    (q1 : requestQueue) (ty : requestType) (id : Nat)
    (hacq : acquireNext q = some (rq, q1)) :
    countKey q1 ty id = countKey q ty id := by
  obtain ⟨e, rest, hh, he, hrq, hq1⟩ := acquireNext_some q rq q1 hacq
  rw [hq1]
  unfold countKey
  simp only
  rw [hh]
  simp [List.countP_cons, sameKey]

/-- C5 counterexample: acquireNext does return a request whose nextSyncAt is
later than the current clock time. With the queue holding exactly the user-1
request due at time 5 and the clock reading 3, acquireNext returns that
request, whose remaining wait is the positive 5 - 3 = 2; the due-time check
and deferral are performed by the caller runSync, not by acquireNext. -/
theorem acquireNext_future_due_counterexample :
    acquireNext exQ5 = some (exReq5, exQ5a) ∧
    waitOf exReq5.meta.NextSyncAt 3 = 2 ∧ (0 : Int) < 2 := by
  refine ⟨?_, ?_, ?_⟩ <;> decide

/-- C5 (amended): whenever acquireNext hands runSync a request whose
nextSyncAt lies in the future, the executor does not dispatch it: the request
is released back (the queue keeps exactly as many entries for its key, all
unacquired) and a one-shot timer is armed for exactly nextSyncAt minus now. -/
theorem runSyncStep_defers_future_due (q : requestQueue) (now : Nat)
    (userRes repoRes : Except GoErr Unit) (rq : syncRequest) (q1 : requestQueue)
    (hacq : acquireNext q = some (rq, q1))
    (hfut : waitOf rq.meta.NextSyncAt now > 0) :
    (runSyncStep q now userRes repoRes).dispatched = none ∧
    (runSyncStep q now userRes repoRes).timer = some (waitOf rq.meta.NextSyncAt now) ∧
    countKey (runSyncStep q now userRes repoRes).queue rq.meta.rType rq.meta.ID
      = countKey q rq.meta.rType rq.meta.ID ∧
    ((runSyncStep q now userRes repoRes).queue.heap.filter
        (fun e => sameKey rq.meta.rType rq.meta.ID e)).all
      (fun e => !e.acquired) = true := by
  have hrun : runSyncStep q now userRes repoRes =
      { queue := releaseQ q1 rq.meta.rType rq.meta.ID, dispatched := none,
        timer := some (waitOf rq.meta.NextSyncAt now) } := by
    unfold runSyncStep
    rw [hacq]
    simp [hfut]
  rw [hrun]
  refine ⟨rfl, rfl, ?_, ?_⟩
  · rw [countKey_releaseQ]
    exact countKey_acquireNext q rq q1 rq.meta.rType rq.meta.ID hacq
  · exact releaseQ_all_unacquired q1 rq.meta.rType rq.meta.ID

/-- Witness for the amended C5 at the concrete queue holding the user-1
request due at 5, with the clock reading 3. -/
theorem runSyncStep_defers_future_due_witness :
    (runSyncStep exQ5 3 (.ok ()) (.ok ())).dispatched = none ∧
    (runSyncStep exQ5 3 (.ok ()) (.ok ())).timer
      = some (waitOf exReq5.meta.NextSyncAt 3) ∧
    countKey (runSyncStep exQ5 3 (.ok ()) (.ok ())).queue
        exReq5.meta.rType exReq5.meta.ID
      = countKey exQ5 exReq5.meta.rType exReq5.meta.ID ∧
    ((runSyncStep exQ5 3 (.ok ()) (.ok ())).queue.heap.filter
        (fun e => sameKey exReq5.meta.rType exReq5.meta.ID e)).all
      (fun e => !e.acquired) = true :=
  runSyncStep_defers_future_due exQ5 3 (.ok ()) (.ok ()) exReq5 exQ5a
    (by decide) (by decide)

/-- C10: a ScheduleUsers or ScheduleRepos call with an empty ID list, or made
while syncing is disabled, leaves the priority request queue completely
unchanged. -/
theorem scheduleCalls_disabled_or_empty_noop (c : SyncerConfig)
    (q : requestQueue) (userIDs repoIDs : List Nat) :
    (userIDs.isEmpty = true ∨ isDisabled c = true → ScheduleUsers c q userIDs = q) ∧
    (repoIDs.isEmpty = true ∨ isDisabled c = true → ScheduleRepos c q repoIDs = q) := by
  constructor
  · intro h
    unfold ScheduleUsers
    rcases h with h | h
    · simp [h]
    · simp [h]
  · intro h
    unfold ScheduleRepos
    rcases h with h | h
    · simp [h]
    · simp [h]

/-- Witness for C10: with permissions user mapping enabled (syncing disabled),
scheduling user 1 and repo 2 leaves the empty queue unchanged. -/
theorem scheduleCalls_disabled_witness :
    ScheduleUsers cDisabled emptyQueue [1] = emptyQueue ∧
    ScheduleRepos cDisabled emptyQueue [2] = emptyQueue :=
  ⟨(scheduleCalls_disabled_or_empty_noop cDisabled emptyQueue [1] [2]).1
      (Or.inr (by decide)),
    (scheduleCalls_disabled_or_empty_noop cDisabled emptyQueue [1] [2]).2
      (Or.inr (by decide))⟩

theorem handleExclusion_characterization (d : String) (incl excl : List String) :
    (incl.find? (fun x => strStarts d x) = none →
      handleExclusion d incl excl = (incl, excl)) ∧
    (∀ pre, incl.find? (fun x => strStarts d x) = some pre → d = pre →
      handleExclusion d incl excl = (incl.eraseP (fun x => strStarts d x), excl)) ∧
    (∀ pre, incl.find? (fun x => strStarts d x) = some pre → d ≠ pre →
      handleExclusion d incl excl = (incl, excl ++ [d])) := by
  induction incl generalizing excl with
  | nil =>
    refine ⟨fun _ => rfl, fun pre h => by simp at h, fun pre h => by simp at h⟩
  | cons p0 rest ih =>
    by_cases hp : strStarts d p0
    · refine ⟨?_, ?_, ?_⟩
      · intro h
        rw [List.find?_cons_of_pos rest hp] at h
        exact absurd h (by simp)
      · intro pre h heq
        rw [List.find?_cons_of_pos rest hp] at h
        have hpre : pre = p0 := by
          have := Option.some.inj h
          exact this.symm
        subst hpre
        have hbeq : (d == pre) = true := by simp [heq]
        simp only [handleExclusion, if_pos hp, if_pos hbeq]
        rw [List.eraseP_cons_of_pos hp]
      · intro pre h hne
        rw [List.find?_cons_of_pos rest hp] at h
        have hpre : pre = p0 := (Option.some.inj h).symm
        subst hpre
        have hbeq : ¬ ((d == pre) = true) := by simpa using hne
        simp only [handleExclusion, if_pos hp, if_neg hbeq]
    · have hfind : (p0 :: rest).find? (fun x => strStarts d x)
          = rest.find? (fun x => strStarts d x) :=
        List.find?_cons_of_neg rest (by simpa using hp)
      have hstep : handleExclusion d (p0 :: rest) excl
          = (p0 :: (handleExclusion d rest excl).1, (handleExclusion d rest excl).2) := by
        simp only [handleExclusion, if_neg hp]
      refine ⟨?_, ?_, ?_⟩
      · intro h
        rw [hfind] at h
        rw [hstep, (ih excl).1 h]
      · intro pre h heq
        rw [hfind] at h
        rw [hstep, (ih excl).2.1 pre h heq]
        rw [List.eraseP_cons_of_neg (by simpa using hp)]
      · intro pre h hne
        rw [hfind] at h
        rw [hstep, (ih excl).2.2 pre h hne]

/-- C8 counterexample: after granting //a/... and then //a/b/... the include
list is //a/, //a/b/; the exclusion line for //a/b/... (minus-prefixed depot
path) has a depot path exactly equal to the existing include //a/b/, yet
processing it leaves the include list unchanged and appends the path to the
exclude list, because the earlier include //a/ is the first prefix match and
decides. The claim, as stated, requires the include //a/b/ to be removed and
nothing to be appended. -/
theorem exclusion_exact_match_counterexample :
    [exLine1, exLine2].foldl processProtectsLine ([], []) = (["//a/", "//a/b/"], []) ∧
    processProtectsLine (["//a/", "//a/b/"], []) exLine3
      = (["//a/", "//a/b/"], ["//a/b/"]) ∧
    scanProtects [exLine1, exLine2, exLine3]
      = (["//a/%", "//a/b/%"], ["//a/b/%"]) := by
  refine ⟨?_, ?_, ?_⟩ <;> decide

/-- C8 (amended): for an exclusion rule (leading minus) whose access level can
revoke read access: a wildcard-carrying path is always appended to the
exclude list; for a wildcard-free path only the first include (in list order)
that is a prefix of the path decides the outcome: when that include equals
the path exactly it is removed from the include list and nothing is appended,
when it is a strict prefix the include list is unchanged and the path is
appended to the exclude list, and when no include is a prefix the rule is
dropped entirely. -/
theorem applyProtectsRule_exclusion_first_match (level path d : String)
    (incl excl : List String)
    (hminus : strStarts path "-" = true)
    (hd : d = String.mk (path.toList.drop 1))
    (hrev : canRevokeReadAccess level = true) :
    ((strContains d wildcardMatchAll || strContains d wildcardMatchDirectory) = true →
      applyProtectsRule (incl, excl) level path = (incl, excl ++ [d])) ∧
    ((strContains d wildcardMatchAll || strContains d wildcardMatchDirectory) = false →
      (incl.find? (fun x => strStarts d x) = none →
        applyProtectsRule (incl, excl) level path = (incl, excl)) ∧
      (∀ pre, incl.find? (fun x => strStarts d x) = some pre → d = pre →
        applyProtectsRule (incl, excl) level path
          = (incl.eraseP (fun x => strStarts d x), excl)) ∧
      (∀ pre, incl.find? (fun x => strStarts d x) = some pre → d ≠ pre →
        applyProtectsRule (incl, excl) level path = (incl, excl ++ [d]))) := by
  have hrule : applyProtectsRule (incl, excl) level path =
      (if (strContains d wildcardMatchAll || strContains d wildcardMatchDirectory) = true
        then (incl, excl ++ [d])
        else handleExclusion d incl excl) := by
    unfold applyProtectsRule
    rw [if_pos hminus, if_neg (by simp [hrev]), ← hd]
  constructor
  · intro hw
    rw [hrule, if_pos hw]
  · intro hw
    have hrule2 : applyProtectsRule (incl, excl) level path
        = handleExclusion d incl excl := by
      rw [hrule, if_neg (by simp [hw])]
    refine ⟨?_, ?_, ?_⟩
    · intro h
      rw [hrule2]
      exact (handleExclusion_characterization d incl excl).1 h
    · intro pre h heq
      rw [hrule2]
      exact (handleExclusion_characterization d incl excl).2.1 pre h heq
    · intro pre h hne
      rw [hrule2]
      exact (handleExclusion_characterization d incl excl).2.2 pre h hne

/-- Witness for the amended C8: excluding //a/b/ when the include list holds
only the strict prefix //a/ appends the exclusion and keeps the include. -/
theorem applyProtectsRule_exclusion_witness :
    applyProtectsRule (["//a/"], []) "read" "-//a/b/" = (["//a/"], ["//a/b/"]) := by
  have h := applyProtectsRule_exclusion_first_match "read" "-//a/b/" "//a/b/"
    ["//a/"] [] (by decide) (by decide) (by decide)
  exact (h.2 (by decide)).2.2 "//a/" (by decide) (by decide)

theorem firstProviderMatch_none (ps : List Provider) (urns : List String)
    (h : ∀ urn ∈ urns, byURN ps urn = none) : firstProviderMatch ps urns = none := by
  induction urns with
  | nil => rfl
  | cons u rest ih =>
    simp only [firstProviderMatch]
    rw [h u (List.mem_cons_self u rest)]
    exact ih (fun x hx => h x (List.mem_cons_of_mem _ hx))

/-- C6: for a repository with no applicable authorization provider, either
because it is not private or because it is private but none of its source
URNs matches a configured provider, syncRepoPerms issues exactly one
TouchRepoPermissions call and no SetRepoPermissions or
SetRepoPendingPermissions call. -/
theorem syncRepoPerms_touch_only (env : RepoSyncEnv) (repoID : Nat) (repo : Repo)
    (hlist : env.listRepos = .ok [repo])
    (hcase : repo.priv = false ∨
      ((∃ us, env.listExtSvcUserIDs = .ok us) ∧
        ∀ urn ∈ repo.sources, byURN env.providers urn = none)) :
    (syncRepoPerms env repoID false).snd = [StoreWrite.touchRepoPermissions repoID] := by
  unfold syncRepoPerms
  rw [hlist]
  dsimp only
  rcases hcase with hpriv | ⟨⟨us, hus⟩, hurns⟩
  · simp [hpriv]
  · by_cases hp : repo.priv
    · simp [hp, hus, firstProviderMatch_none env.providers repo.sources hurns]
    · simp [hp]

/-- Witness for C6: syncing the non-private repository 3 issues exactly the
touch write. -/
theorem syncRepoPerms_touch_only_witness :
    (syncRepoPerms repoEnvEx 3 false).snd = [StoreWrite.touchRepoPermissions 3] :=
  syncRepoPerms_touch_only repoEnvEx 3 repoEx rfl (Or.inl rfl)

/-- C9: when the repository listing for the requested ID comes back empty,
syncRepoPerms returns success and performs no store write at all. -/
theorem syncRepoPerms_missing_repo_noop (env : RepoSyncEnv) (repoID : Nat)
    (noPerms : Bool) (h : env.listRepos = .ok []) :
    syncRepoPerms env repoID noPerms = (.ok (), []) := by
  unfold syncRepoPerms
  rw [h]

/-- Witness for C9 at the environment whose repository listing is empty. -/
theorem syncRepoPerms_missing_repo_noop_witness :
    syncRepoPerms repoEnvEmpty 3 true = (.ok (), []) :=
  syncRepoPerms_missing_repo_noop repoEnvEmpty 3 true rfl

/-- C7: when the four store queries succeed, schedule returns the four lists
in strict precedence order (no-perms users, then oldest users; no-perms
repos, then oldest repos), every produced entry is low priority, the
never-synced entries have nextSyncAt unset and noPerms set, the oldest-synced
entries carry their stored timestamp as nextSyncAt with noPerms unset, and
each oldest segment holds at most the batch limit of 10 entries (given that
the store respects the limit it was passed). -/
theorem schedule_precedence_low_priority (env : ScheduleEnv)
    (u1 r1 : List Nat) (u2 r2 : List (Nat × Nat))
    (h1 : env.userIDsWithNoPerms = .ok u1)
    (h2 : env.repoIDsWithNoPerms = .ok r1)
    (h3 : env.userIDsWithOldestPerms 10 = .ok u2)
    (h4 : env.reposIDsWithOldestPerms 10 = .ok r2)
    (hu2 : u2.length ≤ 10) (hr2 : r2.length ≤ 10) :
    resultIsError (schedule env) = false ∧
    (schedUsersOf (schedule env)).length = u1.length + u2.length ∧
    (schedReposOf (schedule env)).length = r1.length + r2.length ∧
    (schedUsersOf (schedule env)).all (fun u => u.prio == priority.low) = true ∧
    (schedReposOf (schedule env)).all (fun r => r.prio == priority.low) = true ∧
    ((schedUsersOf (schedule env)).take u1.length).map (fun u => u.userID) = u1 ∧
    ((schedUsersOf (schedule env)).take u1.length).all
      (fun u => u.nextSyncAt == none && u.noPerms == true) = true ∧
    ((schedUsersOf (schedule env)).drop u1.length).map
      (fun u => (u.userID, u.nextSyncAt)) = u2.map (fun p => (p.1, some p.2)) ∧
    ((schedUsersOf (schedule env)).drop u1.length).all
      (fun u => u.noPerms == false) = true ∧
    ((schedUsersOf (schedule env)).drop u1.length).length ≤ 10 ∧
    ((schedReposOf (schedule env)).take r1.length).map (fun r => r.repoID) = r1 ∧
    ((schedReposOf (schedule env)).take r1.length).all
      (fun r => r.nextSyncAt == none && r.noPerms == true) = true ∧
    ((schedReposOf (schedule env)).drop r1.length).map
      (fun r => (r.repoID, r.nextSyncAt)) = r2.map (fun p => (p.1, some p.2)) ∧
    ((schedReposOf (schedule env)).drop r1.length).all
      (fun r => r.noPerms == false) = true ∧
    ((schedReposOf (schedule env)).drop r1.length).length ≤ 10 := by
  have hsched : schedule env = .ok
      { users :=
          u1.map (fun id =>
            { prio := .low, userID := id, nextSyncAt := none, noPerms := true }) ++
          u2.map (fun p =>
            { prio := .low, userID := p.1, nextSyncAt := some p.2, noPerms := false }),
        repos :=
          r1.map (fun id =>
            { prio := .low, repoID := id, nextSyncAt := none, noPerms := true }) ++
          r2.map (fun p =>
            { prio := .low, repoID := p.1, nextSyncAt := some p.2, noPerms := false }) } := by
    unfold schedule scheduleUsersWithNoPerms scheduleReposWithNoPerms
      scheduleUsersWithOldestPerms scheduleReposWithOldestPerms
    rw [h1, h2, h3, h4]
  have husers : schedUsersOf (schedule env) =
      u1.map (fun id =>
        { prio := .low, userID := id, nextSyncAt := none, noPerms := true }) ++
      u2.map (fun p =>
        { prio := .low, userID := p.1, nextSyncAt := some p.2, noPerms := false }) := by
    rw [hsched]
    rfl
  have hrepos : schedReposOf (schedule env) =
      r1.map (fun id =>
        { prio := .low, repoID := id, nextSyncAt := none, noPerms := true }) ++
      r2.map (fun p =>
        { prio := .low, repoID := p.1, nextSyncAt := some p.2, noPerms := false }) := by
    rw [hsched]
    rfl
  have hul : (u1.map (fun id =>
      ({ prio := .low, userID := id, nextSyncAt := none, noPerms := true } :
        scheduledUser))).length = u1.length := by simp
  have hrl : (r1.map (fun id =>
      ({ prio := .low, repoID := id, nextSyncAt := none, noPerms := true } :
        scheduledRepo))).length = r1.length := by simp
  refine ⟨?_, ?_, ?_, ?_, ?_, ?_, ?_, ?_, ?_, ?_, ?_, ?_, ?_, ?_, ?_⟩
  · rw [hsched]
    rfl
  · simp [husers]
  · simp [hrepos]
  · rw [husers]
    apply List.all_eq_true.mpr
    intro u hu
    rcases List.mem_append.mp hu with h | h <;>
      obtain ⟨x, hx, hfx⟩ := List.mem_map.mp h <;> rw [← hfx] <;> rfl
  · rw [hrepos]
    apply List.all_eq_true.mpr
    intro r hr
    rcases List.mem_append.mp hr with h | h <;>
      obtain ⟨x, hx, hfx⟩ := List.mem_map.mp h <;> rw [← hfx] <;> rfl
  · rw [husers, List.take_left' hul, List.map_map]
    show u1.map (fun a => a) = u1
    simp
  · rw [husers, List.take_left' hul]
    apply List.all_eq_true.mpr
    intro u hu
    obtain ⟨x, hx, hfx⟩ := List.mem_map.mp hu
    rw [← hfx]
    rfl
  · rw [husers, List.drop_left' hul, List.map_map]
    rfl
  · rw [husers, List.drop_left' hul]
    apply List.all_eq_true.mpr
    intro u hu
    obtain ⟨x, hx, hfx⟩ := List.mem_map.mp hu
    rw [← hfx]
    rfl
  · rw [husers, List.drop_left' hul]
    simpa using hu2
  · rw [hrepos, List.take_left' hrl, List.map_map]
    show r1.map (fun a => a) = r1
    simp
  · rw [hrepos, List.take_left' hrl]
    apply List.all_eq_true.mpr
    intro r hr
    obtain ⟨x, hx, hfx⟩ := List.mem_map.mp hr
    rw [← hfx]
    rfl
  · rw [hrepos, List.drop_left' hrl, List.map_map]
    rfl
  · rw [hrepos, List.drop_left' hrl]
    apply List.all_eq_true.mpr
    intro r hr
    obtain ⟨x, hx, hfx⟩ := List.mem_map.mp hr
    rw [← hfx]
    rfl
  · rw [hrepos, List.drop_left' hrl]
    simpa using hr2

/-- Witness for C7: three never-synced users and two never-synced private
repos with no oldest-perms entries produce exactly those five entities, all
at low priority, in precedence order. -/
theorem schedule_precedence_witness :
    resultIsError (schedule schedEnvEx) = false ∧
    (schedUsersOf (schedule schedEnvEx)).length = [1, 2, 3].length + ([] : List (Nat × Nat)).length ∧
    (schedReposOf (schedule schedEnvEx)).length = [4, 5].length + ([] : List (Nat × Nat)).length ∧
    (schedUsersOf (schedule schedEnvEx)).all (fun u => u.prio == priority.low) = true ∧
    (schedReposOf (schedule schedEnvEx)).all (fun r => r.prio == priority.low) = true ∧
    ((schedUsersOf (schedule schedEnvEx)).take [1, 2, 3].length).map
      (fun u => u.userID) = [1, 2, 3] ∧
    ((schedUsersOf (schedule schedEnvEx)).take [1, 2, 3].length).all
      (fun u => u.nextSyncAt == none && u.noPerms == true) = true ∧
    ((schedUsersOf (schedule schedEnvEx)).drop [1, 2, 3].length).map
      (fun u => (u.userID, u.nextSyncAt))
      = ([] : List (Nat × Nat)).map (fun p => (p.1, some p.2)) ∧
    ((schedUsersOf (schedule schedEnvEx)).drop [1, 2, 3].length).all
      (fun u => u.noPerms == false) = true ∧
    ((schedUsersOf (schedule schedEnvEx)).drop [1, 2, 3].length).length ≤ 10 ∧
    ((schedReposOf (schedule schedEnvEx)).take [4, 5].length).map
      (fun r => r.repoID) = [4, 5] ∧
    ((schedReposOf (schedule schedEnvEx)).take [4, 5].length).all
      (fun r => r.nextSyncAt == none && r.noPerms == true) = true ∧
    ((schedReposOf (schedule schedEnvEx)).drop [4, 5].length).map
      (fun r => (r.repoID, r.nextSyncAt))
      = ([] : List (Nat × Nat)).map (fun p => (p.1, some p.2)) ∧
    ((schedReposOf (schedule schedEnvEx)).drop [4, 5].length).all
      (fun r => r.noPerms == false) = true ∧
    ((schedReposOf (schedule schedEnvEx)).drop [4, 5].length).length ≤ 10 :=
  schedule_precedence_low_priority schedEnvEx [1, 2, 3] [4, 5] [] []
    rfl rfl rfl rfl (by decide) (by decide)

theorem fetchItem_writes_no_set (env : UserSyncEnv) (noPerms : Bool)
    (it : AccountOrService) (st : SpecsState) :
    ∀ w ∈ (fetchItem env noPerms it st).2, isSetUserPermsWrite w = false := by
  intro w hw
  unfold fetchItem at hw
  cases it <;> dsimp only at hw <;>
    (repeat' split at hw) <;>
    simp_all [isSetUserPermsWrite]

theorem fetchLoop_writes_no_set (env : UserSyncEnv) (noPerms : Bool) :
    ∀ (items : List AccountOrService) (st : SpecsState),
      ∀ w ∈ (fetchLoop env noPerms items st).2, isSetUserPermsWrite w = false
  | [], st => by simp [fetchLoop]
  | it :: rest, st => by
    intro w hw
    unfold fetchLoop at hw
    cases hfi : fetchItem env noPerms it st with
    | mk fst ws =>
      rw [hfi] at hw
      have hws : ∀ w ∈ ws, isSetUserPermsWrite w = false := by
        intro x hx
        exact fetchItem_writes_no_set env noPerms it st x (by rw [hfi]; exact hx)
      cases fst with
      | error e =>
        dsimp only at hw
        exact hws w hw
      | ok st2 =>
        dsimp only at hw
        rcases List.mem_append.mp hw with h | h
        · exact hws w h
        · exact fetchLoop_writes_no_set env noPerms rest st2 w h

theorem fetchMissingAccounts_writes_no_set (env : UserSyncEnv) (userID : Nat)
    (serviceKeys : List String) :
    ∀ (ps : List Provider),
      ∀ w ∈ (fetchMissingAccounts env userID serviceKeys ps).2,
        isSetUserPermsWrite w = false
  | [] => by simp [fetchMissingAccounts]
  | p :: ps => by
    intro w hw
    have ih := fetchMissingAccounts_writes_no_set env userID serviceKeys ps
    unfold fetchMissingAccounts at hw
    repeat' split at hw
    all_goals first
      | exact ih w hw
      | (rcases List.mem_cons.mp hw with h | h
         · rw [h]; rfl
         · exact ih w h)

theorem userSyncPrep_writes_no_set (env : UserSyncEnv) (userID : Nat) :
    ∀ w ∈ (userSyncPrep env userID).2, isSetUserPermsWrite w = false := by
  intro w hw
  unfold userSyncPrep at hw
  repeat' split at hw
  all_goals first
    | exact fetchMissingAccounts_writes_no_set env userID _ env.providers w hw
    | simp at hw

theorem fetchItem_no_error (env : UserSyncEnv) (it : AccountOrService) (st : SpecsState)
    (hwait : ∀ s, env.waitForRateLimit s = .ok ())
    (hexp : ∀ i, env.touchExpired i = .ok ())
    (hval : ∀ i, env.touchLastValid i = .ok ()) :
    resultIsError (fetchItem env true it st).1 = false := by
  unfold fetchItem
  cases it <;> dsimp only <;> repeat' split
  all_goals try rfl
  all_goals simp_all [resultIsError]

theorem fetchLoop_ok (env : UserSyncEnv)
    (hwait : ∀ s, env.waitForRateLimit s = .ok ())
    (hexp : ∀ i, env.touchExpired i = .ok ())
    (hval : ∀ i, env.touchLastValid i = .ok ()) :
    ∀ (items : List AccountOrService) (st : SpecsState),
      ∃ st2, (fetchLoop env true items st).1 = .ok st2
  | [], st => ⟨st, rfl⟩
  | it :: rest, st => by
    cases hfi : fetchItem env true it st with
    | mk fst ws =>
      cases fst with
      | error e =>
        exfalso
        have hne := fetchItem_no_error env it st hwait hexp hval
        rw [hfi] at hne
        simp [resultIsError] at hne
      | ok st2 =>
        obtain ⟨st3, h3⟩ := fetchLoop_ok env hwait hexp hval rest st2
        refine ⟨st3, ?_⟩
        unfold fetchLoop
        rw [hfi]
        dsimp only
        exact h3

theorem listNamesLoop_ok (env : UserSyncEnv)
    (hexact : ∀ specs, ∃ ns, env.listRepoNamesExact specs = .ok ns) :
    ∀ (fuel : Nat) (remaining : List ExternalRepoSpec) (nextCut : Nat) (acc : List Nat),
      ∃ ns, listNamesLoop env fuel remaining nextCut acc = .ok ns
  | 0, remaining, nextCut, acc => ⟨acc, rfl⟩
  | fuel + 1, remaining, nextCut, acc => by
    by_cases hc : nextCut = 0
    · exact ⟨acc, by unfold listNamesLoop; rw [if_pos hc]⟩
    · obtain ⟨ns, hns⟩ := hexact (remaining.take nextCut)
      obtain ⟨ns2, hns2⟩ := listNamesLoop_ok env hexact fuel (remaining.drop nextCut)
        (if (remaining.drop nextCut).length < nextCut
          then (remaining.drop nextCut).length else nextCut) (acc ++ ns)
      refine ⟨ns2, ?_⟩
      unfold listNamesLoop
      rw [if_neg hc, hns]
      exact hns2

theorem listPrivateRepoNamesByExact_ok (env : UserSyncEnv)
    (hexact : ∀ specs, ∃ ns, env.listRepoNamesExact specs = .ok ns)
    (specs : List ExternalRepoSpec) :
    ∃ ns, listPrivateRepoNamesByExact env specs = .ok ns := by
  unfold listPrivateRepoNamesByExact
  by_cases h : specs.isEmpty
  · exact ⟨[], by rw [if_pos h]⟩
  · rw [if_neg h]
    exact listNamesLoop_ok env hexact (specs.length + 2) specs _ []

/-- C2: for a user with no existing permission row (noPerms = true), when a
provider fetch for one of the user external accounts fails with an error that
is not unauthorized, forbidden or account-suspended, and the store operations
themselves succeed, syncUserPerms does not return the error: it completes
successfully and persists the collected partial results with one
SetUserPermissions call. -/
theorem syncUserPerms_noPerms_partial_results_persisted
    (env : UserSyncEnv) (userID : Nat) (rids : List Nat)
    (items : List AccountOrService) (ws0 : List StoreWrite)
    (a : Account) (prov : Provider) (msg : String)
    (hprep : userSyncPrep env userID = (.ok (rids, items), ws0))
    (hmem : AccountOrService.account a ∈ items)
    (hprov : byServiceID env.providers a.serviceID = some prov)
    (hfail : (env.fetchUserPerms a.id).2 = some (.other msg))
    (hwait : ∀ s, env.waitForRateLimit s = .ok ())
    (hexp : ∀ i, env.touchExpired i = .ok ())
    (hval : ∀ i, env.touchLastValid i = .ok ())
    (hexact : ∀ specs, ∃ ns, env.listRepoNamesExact specs = .ok ns)
    (hcont : ∀ incls excls, ∃ ns, env.listRepoNamesContains incls excls = .ok ns)
    (hset : env.setUserPermissions = .ok ()) :
    (syncUserPerms env userID true).fst = .ok () ∧
    ∃ ids, StoreWrite.setUserPermissions userID ids ∈ (syncUserPerms env userID true).snd := by
  unfold syncUserPerms
  rw [hprep]
  dsimp only
  cases hloop : fetchLoop env true items emptySpecs with
  | mk fst ws1 =>
    obtain ⟨st2, hst2⟩ := fetchLoop_ok env hwait hexp hval items emptySpecs
    rw [hloop] at hst2
    dsimp only at hst2
    subst hst2
    dsimp only
    obtain ⟨names1, hn1⟩ := listPrivateRepoNamesByExact_ok env hexact st2.repoSpecs
    rw [hn1]
    dsimp only
    by_cases hic : st2.includeContainsSpecs.isEmpty
    · rw [if_pos hic]
      dsimp only
      rw [hset]
      exact ⟨rfl, ⟨_, by simp; exact Or.inr (Or.inr rfl)⟩⟩
    · obtain ⟨names2, hn2⟩ := hcont st2.includeContainsSpecs st2.excludeContainsSpecs
      rw [if_neg hic, hn2]
      dsimp only
      rw [hset]
      exact ⟨rfl, ⟨_, by simp; exact Or.inr (Or.inr rfl)⟩⟩

/-- Witness for C2: in the concrete environment the fetch for account 12
fails with a plain error, yet the sync with noPerms set succeeds and issues
the SetUserPermissions write with the partial results. -/
theorem syncUserPerms_noPerms_partial_witness :
    (syncUserPerms userEnvEx 7 true).fst = .ok () ∧
    ∃ ids, StoreWrite.setUserPermissions 7 ids ∈ (syncUserPerms userEnvEx 7 true).snd :=
  syncUserPerms_noPerms_partial_results_persisted userEnvEx 7 [55]
    [.account acctEx1, .account acctEx2] [] acctEx2 provEx "boom"
    rfl (by decide) rfl rfl
    (fun _ => rfl) (fun _ => rfl) (fun _ => rfl)
    (fun _ => ⟨[101], rfl⟩) (fun _ _ => ⟨[], rfl⟩) rfl

theorem fetchItem_err_on_account (env : UserSyncEnv) (a : Account) (prov : Provider)
    (msg : String) (st : SpecsState)
    (hprov : byServiceID env.providers a.serviceID = some prov)
    (hfail : (env.fetchUserPerms a.id).2 = some (.other msg)) :
    resultIsError (fetchItem env false (.account a) st).1 = true := by
  unfold fetchItem
  dsimp only
  rw [hprov]
  dsimp only
  cases hw : env.waitForRateLimit prov.serviceID with
  | error e => rfl
  | ok u =>
    rw [hfail]
    rfl

theorem fetchLoop_err_of_mem (env : UserSyncEnv) (a : Account) (prov : Provider)
    (msg : String)
    (hprov : byServiceID env.providers a.serviceID = some prov)
    (hfail : (env.fetchUserPerms a.id).2 = some (.other msg)) :
    ∀ (items : List AccountOrService) (st : SpecsState),
      AccountOrService.account a ∈ items →
      resultIsError (fetchLoop env false items st).1 = true
  | [], st, hmem => by simp at hmem
  | it :: rest, st, hmem => by
    cases hfi : fetchItem env false it st with
    | mk fst ws =>
      cases fst with
      | error e =>
        unfold fetchLoop
        rw [hfi]
        rfl
      | ok st2 =>
        rcases List.mem_cons.mp hmem with heq | hmem2
        · exfalso
          have herr := fetchItem_err_on_account env a prov msg st hprov hfail
          rw [← heq] at hfi
          rw [hfi] at herr
          simp [resultIsError] at herr
        · unfold fetchLoop
          rw [hfi]
          dsimp only
          exact fetchLoop_err_of_mem env a prov msg hprov hfail rest st2 hmem2

/-- C3: for a user with an existing permission row (noPerms = false), when a
provider fetch for one of the user external accounts fails with an error that
is not unauthorized, forbidden or account-suspended, syncUserPerms returns an
error and SetUserPermissions is never called in that run. -/
theorem syncUserPerms_existing_perms_fetch_error_no_write
    (env : UserSyncEnv) (userID : Nat) (rids : List Nat)
    (items : List AccountOrService) (ws0 : List StoreWrite)
    (a : Account) (prov : Provider) (msg : String)
    (hprep : userSyncPrep env userID = (.ok (rids, items), ws0))
    (hmem : AccountOrService.account a ∈ items)
    (hprov : byServiceID env.providers a.serviceID = some prov)
    (hfail : (env.fetchUserPerms a.id).2 = some (.other msg)) :
    resultIsError (syncUserPerms env userID false).fst = true ∧
    (syncUserPerms env userID false).snd.all (fun w => !isSetUserPermsWrite w) = true := by
  unfold syncUserPerms
  rw [hprep]
  dsimp only
  cases hloop : fetchLoop env false items emptySpecs with
  | mk fst ws1 =>
    have herr := fetchLoop_err_of_mem env a prov msg hprov hfail items emptySpecs hmem
    rw [hloop] at herr
    cases fst with
    | ok st2 => simp [resultIsError] at herr
    | error e =>
      dsimp only
      constructor
      · rfl
      · apply List.all_eq_true.mpr
        intro w hw
        rcases List.mem_append.mp hw with h | h
        · have hns := userSyncPrep_writes_no_set env userID w (by rw [hprep]; exact h)
          simp [hns]
        · have hns := fetchLoop_writes_no_set env false items emptySpecs w
            (by rw [hloop]; exact h)
          simp [hns]

/-- Witness for C3: in the same concrete environment, the sync with noPerms
unset fails on account 12 and issues no SetUserPermissions write. -/
theorem syncUserPerms_existing_perms_no_write_witness :
    resultIsError (syncUserPerms userEnvEx 7 false).fst = true ∧
    (syncUserPerms userEnvEx 7 false).snd.all (fun w => !isSetUserPermsWrite w) = true :=
  syncUserPerms_existing_perms_fetch_error_no_write userEnvEx 7 [55]
    [.account acctEx1, .account acctEx2] [] acctEx2 provEx "boom"
    rfl (by decide) rfl rfl

end PermsSync
